import Mathlib

/-!
ProxyHydra — verification of the quality-evaluation pipeline.

Shallow embedding of the proxy quality-evaluation and verification pipeline
(`src/common/utils.rs`, `src/service/quality.rs`, `src/service/verifier.rs`,
backing store per `src/db/*`).  Floating-point (`f64`) values are modelled as
real numbers with exact arithmetic; durations in milliseconds as naturals.
-/

namespace ProxyHydra

/-- Embedding of `utils::round2`: `(val * 100.0).round() / 100.0` — round to two decimals. -/
noncomputable def round2 (val : ℝ) : ℝ := ((round (val * 100) : ℤ) : ℝ) / 100

/-- Rust `f64::clamp(lo, hi)` for `lo ≤ hi` (no NaNs in the model). -/
def rclamp (x lo hi : ℝ) : ℝ := max lo (min x hi)

/-- Embedding of `utils::speed_to_score`: piecewise score in `[0,1]`, written against
millisecond thresholds.  `powf(0.5)` on the (nonnegative) normalised ratio is
`Real.sqrt`. -/
noncomputable def speed_to_score (speed : ℝ) : ℝ :=
  if speed ≤ 0 then 0
  else if speed < 300 then 1
  else if speed < 1000 then 1 - Real.sqrt ((speed - 300) / 700)
  else if speed < 5000 then max (0.3 - (speed - 1000) / 4000) 0
  else 0

/-- Embedding of `model::ProxyBasic` — a raw candidate: IP and port, both strings. -/
structure ProxyBasic where
  ip : String
  port : String
deriving DecidableEq, Repr

/-- The key `format!("{}:{}", proxy.ip, proxy.port)` used by `dedup_proxies`. -/
def proxyKey (p : ProxyBasic) : String := p.ip ++ ":" ++ p.port

/-- Inner loop of `utils::dedup_proxies`: the `HashSet` of already-seen keys is
modelled as the list `seen`; `seen.insert(key)` returns true iff the key is new. -/
def dedupAux (seen : List String) : List ProxyBasic → List ProxyBasic
  | [] => []
  | p :: rest =>
      if proxyKey p ∈ seen then dedupAux seen rest
      else p :: dedupAux (proxyKey p :: seen) rest

/-- Embedding of `utils::dedup_proxies`: keep the first occurrence of each `"ip:port"` key. -/
def dedup_proxies (proxies : List ProxyBasic) : List ProxyBasic :=
  dedupAux [] proxies

/-- The value `f64::MAX` = `(2^53 - 1) · 2^971`, the default speed in `compute_score`
when no speed was measured. -/
noncomputable def f64MAX : ℝ := (2 ^ 53 - 1) * 2 ^ 971

/-- Embedding of `model::ProxyCheckResult` — the quality fields of a proxy.  The
`NaiveDateTime` timestamp is modelled as an integer. -/
structure ProxyCheckResult where
  speed : Option ℝ
  success_rate : Option ℝ
  stability : Option ℝ
  score : Option ℝ
  last_checked : Option ℤ

/-- Embedding of `model::Proxy` — candidate identity plus quality fields. -/
structure Proxy where
  ip : String
  port : String
  speed : Option ℝ
  success_rate : Option ℝ
  stability : Option ℝ
  score : Option ℝ
  last_checked : Option ℤ

/-- Embedding of `Proxy::from_parts`. -/
def Proxy.from_parts (basic : ProxyBasic) (result : ProxyCheckResult) : Proxy :=
  { ip := basic.ip, port := basic.port, speed := result.speed,
    success_rate := result.success_rate, stability := result.stability,
    score := result.score, last_checked := result.last_checked }

/-- Embedding of `service::quality::QualityConfig` (fields relevant to scoring and probing;
`timeout` is in milliseconds, `verify_level` is irrelevant after defaulting). -/
structure QualityConfig where
  speed_weight : ℝ
  success_weight : ℝ
  stability_weight : ℝ
  test_count : ℕ
  max_retries : ℕ
  timeout : ℕ
  test_urls : List String

/-- Embedding of `service::quality::QualityTestResults` — per-candidate probe statistics. -/
structure QualityTestResults where
  successes : List ℝ
  failures : ℕ
  total : ℕ

/-- Embedding of `QualityTestResults::success_rate`: `round2(successes.len() / total)`,
`0` when `total = 0`. -/
noncomputable def QualityTestResults.success_rate (r : QualityTestResults) : ℝ :=
  round2 (if r.total = 0 then 0 else (r.successes.length : ℝ) / (r.total : ℝ))

/-- Embedding of `QualityTestResults::average_speed`: `round2(mean successes)`, `0` when
there are no successes. -/
noncomputable def QualityTestResults.average_speed (r : QualityTestResults) : ℝ :=
  round2 (if r.successes = [] then 0 else r.successes.sum / (r.successes.length : ℝ))

/-- Embedding of `service::quality::compute_score`: weighted sum of the speed sub-score,
success rate and stability, clamped to `[0,1]`; missing fields default to `0`
(speed to `f64::MAX`). -/
noncomputable def compute_score (proxy : ProxyCheckResult) (config : QualityConfig) :
    ProxyCheckResult :=
  let speed_score := speed_to_score (proxy.speed.getD f64MAX)
  let success := proxy.success_rate.getD 0
  let stability := proxy.stability.getD 0
  { proxy with
    score := some (rclamp (speed_score * config.speed_weight
      + success * config.success_weight
      + stability * config.stability_weight) 0 1) }

/-- The pure tail of `service::quality::evaluate`, after `run_tests` produced
`test_results` and the store lookup produced `old`: fill speed, success rate,
timestamp (`now`), the blended stability, and the composite score. -/
noncomputable def evaluate_result (test_results : QualityTestResults)
    (old : Option Proxy) (config : QualityConfig) (now : ℤ) : ProxyCheckResult :=
  let result : ProxyCheckResult :=
    { speed := some test_results.average_speed,
      success_rate := some test_results.success_rate,
      stability := none, score := none, last_checked := some now }
  let result :=
    match old with
    | some o =>
        let delta := |result.success_rate.getD 0 - o.success_rate.getD 0|
        let stability := o.stability.getD 0.5 * 0.7 + (1 - delta) * 0.3
        { result with stability := some (rclamp stability 0 1) }
    | none => { result with stability := some 0.5 }
  compute_score result config

/-! ## Storage (`db::manager::ProxyStorage`, rows keyed by `UNIQUE(ip, port)`) -/

/-- The backing table: a list of rows, at most one per `(ip, port)` key. -/
abbrev Store := List Proxy

/-- Embedding of `ProxyStorage::find_proxy_by_ip_port`: first row matching both fields. -/
def find_proxy_by_ip_port (store : Store) (ip port : String) : Option Proxy :=
  store.find? (fun p => p.ip = ip && p.port = port)

/-- Embedding of `ProxyStorage::upsert_quality_proxy`: `INSERT ... ON CONFLICT(ip, port) DO
UPDATE` — replace the quality fields of the matching row, or append a new row. -/
def upsert_quality_proxy (store : Store) (proxy : Proxy) : Store :=
  if store.any (fun p => p.ip = proxy.ip && p.port = proxy.port) then
    store.map (fun p =>
      if p.ip = proxy.ip && p.port = proxy.port then
        { p with
          speed := proxy.speed
          success_rate := proxy.success_rate
          stability := proxy.stability
          score := proxy.score
          last_checked := proxy.last_checked }
      else p)
  else store ++ [proxy]

/-- Embedding of `service::verifier::verify_single`, with the network oracle made explicit:
`test_results` stands for the outcome of `run_tests`.  `evaluate` reads the
prior record from the store, blends and scores; the updated proxy is written
back iff `success_rate.unwrap_or(0.0) > 0.0`.  Returns the boolean verdict and
the store after the call. -/
noncomputable def verify_single (store : Store) (basic : ProxyBasic)
    (test_results : QualityTestResults) (config : QualityConfig) (now : ℤ) :
    Bool × Store :=
  let old := find_proxy_by_ip_port store basic.ip basic.port
  let updated := Proxy.from_parts basic (evaluate_result test_results old config now)
  if 0 < updated.success_rate.getD 0 then
    (true, upsert_quality_proxy store updated)
  else
    (false, store)

/-! ## Probe executor (`service::quality::send_with_retries`) -/

/-- Outcome of one `client.get(url).send().await`: a response with a
success/non-success status and its elapsed seconds, or a transport error. -/
inductive ReqOutcome where
  | ok (statusSuccess : Bool) (elapsed : ℝ)
  | err

/-- Is this outcome a success (an `Ok` response whose status `is_success()`)? -/
def ReqOutcome.isSuccess : ReqOutcome → Bool
  | .ok true _ => true
  | _ => false

/-- The `while attempt <= max_retries` loop of `send_with_retries`, with the
network modelled by `outcomes : ℕ → ReqOutcome` (the result of try number
`attempt`).  Returns the result (`Some (round2 elapsed)` on the first
successful-status response, else `None`), the number of requests issued, and
the list of backoff sleeps performed (milliseconds, in order).  `backoff`
starts at 500 and doubles after every failed try that is retried. -/
noncomputable def sendLoop (outcomes : ℕ → ReqOutcome) (max_retries : ℕ)
    (attempt : ℕ) (backoff : ℕ) : Option ℝ × ℕ × List ℕ :=
  if attempt ≤ max_retries then
    match outcomes attempt with
    | .ok true elapsed => (some (round2 elapsed), 1, [])
    | _ =>
        if attempt < max_retries then
          let rest := sendLoop outcomes max_retries (attempt + 1) (backoff * 2)
          (rest.1, rest.2.1 + 1, backoff :: rest.2.2)
        else (none, 1, [])
  else (none, 0, [])
termination_by max_retries + 1 - attempt

/-- Embedding of `service::quality::send_with_retries`: run the loop from `attempt = 0`
with initial backoff `Duration::from_millis(500)`. -/
noncomputable def send_with_retries (outcomes : ℕ → ReqOutcome) (max_retries : ℕ) :
    Option ℝ × ℕ × List ℕ :=
  sendLoop outcomes max_retries 0 500

/-! ## Spec-side definitions (for refinement comparison only) -/

/-- The spec's step function for the latency sub-score (latency in seconds):
`<0.1 → 1.0`, `<0.5 → 0.8`, `<1.0 → 0.5`, `<2.0 → 0.3`, otherwise `0.1`. -/
noncomputable def stepScore (latency : ℝ) : ℝ :=
  if latency < 0.1 then 1
  else if latency < 0.5 then 0.8
  else if latency < 1 then 0.5
  else if latency < 2 then 0.3
  else 0.1

/-- The spec's deduplication, keyed by an arbitrary key function: keep each
element whose key has not occurred earlier (first occurrence kept, order
preserved). -/
def firstOccurrences {α β : Type} [DecidableEq β] (key : α → β) : List α → List α
  | [] => []
  | p :: rest => p :: firstOccurrences key (rest.filter (fun q => key q ≠ key p))
termination_by l => l.length
decreasing_by simpa using Nat.lt_succ_of_le (List.length_filter_le _ _)

/-! ## Helper lemmas -/

theorem round2_eval (v : ℝ) (n : ℤ) (h1 : (n : ℝ) ≤ v * 100 + 1 / 2)
    (h2 : v * 100 + 1 / 2 < (n : ℝ) + 1) : round2 v = (n : ℝ) / 100 := by
  have : round (v * 100) = n := by
    rw [round_eq]
    exact Int.floor_eq_iff.mpr ⟨h1, h2⟩
  rw [round2, this]

theorem round2_zero : round2 0 = 0 := by
  have : round ((0 : ℝ) * 100) = 0 := by norm_num
  rw [round2, this]
  norm_num

theorem rclamp_nonneg (x : ℝ) : 0 ≤ rclamp x 0 1 := le_max_left 0 _

theorem rclamp_le_one (x : ℝ) : rclamp x 0 1 ≤ 1 :=
  max_le (by norm_num) (min_le_right x 1)

theorem rclamp_eq_self {x : ℝ} (h0 : 0 ≤ x) (h1 : x ≤ 1) : rclamp x 0 1 = x := by
  rw [rclamp, min_eq_left h1, max_eq_right h0]

theorem evaluate_result_success_rate (tr : QualityTestResults) (old : Option Proxy)
    (cfg : QualityConfig) (now : ℤ) :
    (evaluate_result tr old cfg now).success_rate = some tr.success_rate := by
  cases old <;> rfl

theorem evaluate_result_speed (tr : QualityTestResults) (old : Option Proxy)
    (cfg : QualityConfig) (now : ℤ) :
    (evaluate_result tr old cfg now).speed = some tr.average_speed := by
  cases old <;> rfl

theorem evaluate_result_stability_some (tr : QualityTestResults) (o : Proxy)
    (cfg : QualityConfig) (now : ℤ) :
    (evaluate_result tr (some o) cfg now).stability
      = some (rclamp (o.stability.getD 0.5 * 0.7
          + (1 - |tr.success_rate - o.success_rate.getD 0|) * 0.3) 0 1) := rfl

theorem evaluate_result_stability_none (tr : QualityTestResults)
    (cfg : QualityConfig) (now : ℤ) :
    (evaluate_result tr none cfg now).stability = some 0.5 := rfl

theorem average_speed_of_nil (r : QualityTestResults) (h : r.successes = []) :
    r.average_speed = 0 := by
  rw [QualityTestResults.average_speed, if_pos h, round2_zero]

theorem success_rate_three_of_six (r : QualityTestResults)
    (h3 : r.successes.length = 3) (h6 : r.total = 6) : r.success_rate = 0.5 := by
  rw [QualityTestResults.success_rate, if_neg (by rw [h6]; norm_num), h3, h6]
  rw [round2_eval _ 50 (by norm_num) (by norm_num)]
  norm_num

theorem compute_score_score (proxy : ProxyCheckResult) (cfg : QualityConfig) :
    (compute_score proxy cfg).score
      = some (rclamp (speed_to_score (proxy.speed.getD f64MAX) * cfg.speed_weight
          + proxy.success_rate.getD 0 * cfg.success_weight
          + proxy.stability.getD 0 * cfg.stability_weight) 0 1) := rfl

theorem speed_to_score_nonpos (s : ℝ) (hs : s ≤ 0) : speed_to_score s = 0 := by
  rw [speed_to_score, if_pos hs]

/-! ## Claims -/

/-- C5.  For every probe batch result, `success_rate` equals
`successes.length / planned_total` rounded to two decimals (and `0` when
`planned_total = 0`), and `average_speed` equals the arithmetic mean of the
recorded success latencies rounded to two decimals (and `0` when there are no
successes); in particular 3 successes out of `planned_total = 6` yields
`success_rate = 0.5`. -/
theorem aggregate_rates_spec (r : QualityTestResults) :
    (r.total = 0 → r.success_rate = 0)
    ∧ (r.total ≠ 0 →
        r.success_rate = round2 ((r.successes.length : ℝ) / (r.total : ℝ)))
    ∧ (r.successes = [] → r.average_speed = 0)
    ∧ (r.successes ≠ [] →
        r.average_speed = round2 (r.successes.sum / (r.successes.length : ℝ)))
    ∧ (r.successes.length = 3 → r.total = 6 → r.success_rate = 0.5) := by
  refine ⟨fun h => ?_, fun h => ?_, fun h => ?_, fun h => ?_, fun h3 h6 => ?_⟩
  · rw [QualityTestResults.success_rate, if_pos h, round2_zero]
  · rw [QualityTestResults.success_rate, if_neg h]
  · exact average_speed_of_nil r h
  · rw [QualityTestResults.average_speed, if_neg h]
  · exact success_rate_three_of_six r h3 h6

/-- C5 witness: a batch with 3 successes out of 6 planned has success rate
`0.5`, and a batch with no successes has average speed `0`. -/
theorem aggregate_rates_spec_witness :
    QualityTestResults.success_rate ⟨[1, 2, 3], 3, 6⟩ = 0.5
    ∧ QualityTestResults.average_speed ⟨[], 6, 6⟩ = 0 :=
  ⟨(aggregate_rates_spec ⟨[1, 2, 3], 3, 6⟩).2.2.2.2 rfl rfl,
   (aggregate_rates_spec ⟨[], 6, 6⟩).2.2.1 rfl⟩

/-- C2.  Stability update in `evaluate`: with a prior record the new stability
is `clamp(prior.stability·0.7 + (1 − |new_rate − prior.success_rate|)·0.3, 0, 1)`
(absent prior fields default to stability `0.5`, success rate `0`); with no
prior record it is `0.5`; in both cases the value lies in `[0, 1]`. -/
theorem stability_update_spec (tr : QualityTestResults) (o : Proxy)
    (cfg : QualityConfig) (now : ℤ) :
    (evaluate_result tr (some o) cfg now).stability
      = some (rclamp (o.stability.getD 0.5 * 0.7
          + (1 - |tr.success_rate - o.success_rate.getD 0|) * 0.3) 0 1)
    ∧ (evaluate_result tr none cfg now).stability = some 0.5
    ∧ 0 ≤ rclamp (o.stability.getD 0.5 * 0.7
          + (1 - |tr.success_rate - o.success_rate.getD 0|) * 0.3) 0 1
    ∧ rclamp (o.stability.getD 0.5 * 0.7
          + (1 - |tr.success_rate - o.success_rate.getD 0|) * 0.3) 0 1 ≤ 1
    ∧ 0 ≤ (0.5 : ℝ) ∧ (0.5 : ℝ) ≤ 1 :=
  ⟨evaluate_result_stability_some tr o cfg now,
   evaluate_result_stability_none tr cfg now,
   rclamp_nonneg _, rclamp_le_one _, by norm_num, by norm_num⟩

/-- C2 witness: the spec's worked example — prior stability `0.6`, prior
success rate `0.8`, new success rate `0.5` (1 success of 2 planned) gives
stability `0.63`. -/
theorem stability_update_spec_witness :
    (evaluate_result ⟨[1], 1, 2⟩
        (some ⟨"1.2.3.4", "80", none, some 0.8, some 0.6, none, none⟩)
        ⟨0.4, 0.3, 0.3, 3, 3, 5000, []⟩ 0).stability = some 0.63 := by
  have h := (stability_update_spec ⟨[1], 1, 2⟩
      ⟨"1.2.3.4", "80", none, some 0.8, some 0.6, none, none⟩
      ⟨0.4, 0.3, 0.3, 3, 3, 5000, []⟩ 0).1
  have hsr : QualityTestResults.success_rate ⟨[1], 1, 2⟩ = 0.5 := by
    rw [QualityTestResults.success_rate, if_neg (by norm_num)]
    rw [round2_eval _ 50 (by norm_num) (by norm_num)]
    norm_num
  rw [h, hsr]
  have habs : |(0.5 : ℝ) - 0.8| = 0.3 := by
    rw [abs_of_neg (by norm_num)]
    norm_num
  simp only [Option.getD_some]
  rw [habs, show (0.6 : ℝ) * 0.7 + (1 - 0.3) * 0.3 = 0.63 by norm_num]
  rw [rclamp_eq_self (by norm_num) (by norm_num)]

/-- C6.  `compute_score` sets the composite score to
`clamp(speed_subscore·w_speed + success·w_success + stability·w_stability, 0, 1)`,
which always lies in `[0, 1]`. -/
theorem compute_score_clamped_bounds (proxy : ProxyCheckResult) (cfg : QualityConfig) :
    (compute_score proxy cfg).score
      = some (rclamp (speed_to_score (proxy.speed.getD f64MAX) * cfg.speed_weight
          + proxy.success_rate.getD 0 * cfg.success_weight
          + proxy.stability.getD 0 * cfg.stability_weight) 0 1)
    ∧ 0 ≤ rclamp (speed_to_score (proxy.speed.getD f64MAX) * cfg.speed_weight
          + proxy.success_rate.getD 0 * cfg.success_weight
          + proxy.stability.getD 0 * cfg.stability_weight) 0 1
    ∧ rclamp (speed_to_score (proxy.speed.getD f64MAX) * cfg.speed_weight
          + proxy.success_rate.getD 0 * cfg.success_weight
          + proxy.stability.getD 0 * cfg.stability_weight) 0 1 ≤ 1 :=
  ⟨compute_score_score proxy cfg, rclamp_nonneg _, rclamp_le_one _⟩

/-- C10.  `speed_to_score` returns `0` for every nonpositive input; a batch
with no successes has `average_speed = 0`; hence a candidate whose measured
speed is `0` contributes the minimum speed sub-score `0` (not the top bucket)
to the composite score. -/
theorem zero_speed_minimum_subscore :
    (∀ s : ℝ, s ≤ 0 → speed_to_score s = 0)
    ∧ (∀ r : QualityTestResults, r.successes = [] → r.average_speed = 0)
    ∧ (∀ (proxy : ProxyCheckResult) (cfg : QualityConfig), proxy.speed = some 0 →
        (compute_score proxy cfg).score
          = some (rclamp (0 * cfg.speed_weight
              + proxy.success_rate.getD 0 * cfg.success_weight
              + proxy.stability.getD 0 * cfg.stability_weight) 0 1)) := by
  refine ⟨speed_to_score_nonpos, average_speed_of_nil, fun proxy cfg h => ?_⟩
  have h1 := compute_score_score proxy cfg
  rw [h] at h1
  rw [h1]
  rw [show (some (0:ℝ)).getD f64MAX = 0 from rfl, speed_to_score_nonpos 0 le_rfl]

/-- C10 witness: `speed_to_score 0 = 0`; an all-failure batch has average
speed `0`; a candidate with measured speed `0`, success rate `1` and
stability `0.5` is scored with a zero speed contribution. -/
theorem zero_speed_minimum_subscore_witness :
    speed_to_score 0 = 0
    ∧ QualityTestResults.average_speed ⟨[], 3, 3⟩ = 0
    ∧ (compute_score ⟨some 0, some 1, some 0.5, none, none⟩
        ⟨0.4, 0.3, 0.3, 3, 3, 5000, []⟩).score
        = some (rclamp (0 * 0.4 + 1 * 0.3 + 0.5 * 0.3) 0 1) := by
  refine ⟨zero_speed_minimum_subscore.1 0 le_rfl,
    zero_speed_minimum_subscore.2.1 ⟨[], 3, 3⟩ rfl, ?_⟩
  have h := zero_speed_minimum_subscore.2.2 ⟨some 0, some 1, some 0.5, none, none⟩
    ⟨0.4, 0.3, 0.3, 3, 3, 5000, []⟩ rfl
  simpa using h

/-- The computed success rate is never negative. -/
theorem success_rate_nonneg (r : QualityTestResults) : 0 ≤ r.success_rate := by
  rw [QualityTestResults.success_rate, round2]
  set x : ℝ := (if r.total = 0 then 0
      else (r.successes.length : ℝ) / (r.total : ℝ)) with hxdef
  have hx : (0 : ℝ) ≤ x := by
    rw [hxdef]
    split
    · exact le_refl 0
    · exact div_nonneg (Nat.cast_nonneg _) (Nat.cast_nonneg _)
  have hr : (0 : ℤ) ≤ round (x * 100) := by
    rw [round_eq]
    exact Int.floor_nonneg.mpr (by nlinarith)
  have hr' : (0 : ℝ) ≤ ((round (x * 100) : ℤ) : ℝ) := by exact_mod_cast hr
  exact div_nonneg hr' (by norm_num)

/-- C3.  `verify_single` returns `true` and writes the evaluated proxy through
`upsert_quality_proxy` exactly when the computed success rate is positive;
when it is `0` (it is never negative) nothing is written and every stored
record is left unchanged. -/
theorem verify_single_upsert_iff (store : Store) (basic : ProxyBasic)
    (tr : QualityTestResults) (cfg : QualityConfig) (now : ℤ) :
    0 ≤ tr.success_rate
    ∧ ((verify_single store basic tr cfg now).1 = true ↔ 0 < tr.success_rate)
    ∧ (0 < tr.success_rate →
        verify_single store basic tr cfg now
          = (true, upsert_quality_proxy store
              (Proxy.from_parts basic (evaluate_result tr
                (find_proxy_by_ip_port store basic.ip basic.port) cfg now))))
    ∧ (tr.success_rate = 0 → verify_single store basic tr cfg now = (false, store))
    ∧ (tr.success_rate = 0 → ∀ ip port,
        find_proxy_by_ip_port (verify_single store basic tr cfg now).2 ip port
          = find_proxy_by_ip_port store ip port) := by
  have hsr : (Proxy.from_parts basic (evaluate_result tr
      (find_proxy_by_ip_port store basic.ip basic.port) cfg now)).success_rate
      = some tr.success_rate := evaluate_result_success_rate tr _ cfg now
  have hif : verify_single store basic tr cfg now
      = if 0 < tr.success_rate then
          (true, upsert_quality_proxy store
            (Proxy.from_parts basic (evaluate_result tr
              (find_proxy_by_ip_port store basic.ip basic.port) cfg now)))
        else (false, store) := by
    rw [verify_single, hsr]
    rfl
  refine ⟨success_rate_nonneg tr, ?_, fun h => ?_, fun h => ?_, fun h ip port => ?_⟩
  · constructor
    · intro htrue
      by_contra hneg
      rw [hif, if_neg hneg] at htrue
      exact Bool.false_ne_true htrue
    · intro hpos
      rw [hif, if_pos hpos]
  · rw [hif, if_pos h]
  · rw [hif, if_neg (by rw [h]; exact lt_irrefl 0)]
  · rw [hif, if_neg (by rw [h]; exact lt_irrefl 0)]

/-- C3 witness: a zero-success-rate candidate is rejected and leaves a
pre-existing store row untouched; a positive-rate candidate is accepted. -/
theorem verify_single_upsert_iff_witness :
    QualityTestResults.success_rate ⟨[], 0, 0⟩ = 0
    ∧ verify_single [⟨"1.2.3.4", "80", none, some 0.8, some 0.6, none, none⟩]
        ⟨"1.2.3.4", "80"⟩ ⟨[], 0, 0⟩ ⟨0.4, 0.3, 0.3, 3, 3, 5000, []⟩ 0
        = (false, [⟨"1.2.3.4", "80", none, some 0.8, some 0.6, none, none⟩])
    ∧ (verify_single [] ⟨"5.6.7.8", "81"⟩ ⟨[1, 2, 3], 3, 6⟩
        ⟨0.4, 0.3, 0.3, 3, 3, 5000, []⟩ 0).1 = true := by
  have h0 : QualityTestResults.success_rate ⟨[], 0, 0⟩ = 0 := by
    rw [QualityTestResults.success_rate, if_pos rfl, round2_zero]
  refine ⟨h0, ?_, ?_⟩
  · exact (verify_single_upsert_iff [⟨"1.2.3.4", "80", none, some 0.8, some 0.6,
      none, none⟩] ⟨"1.2.3.4", "80"⟩ ⟨[], 0, 0⟩
      ⟨0.4, 0.3, 0.3, 3, 3, 5000, []⟩ 0).2.2.2.1 h0
  · exact (verify_single_upsert_iff [] ⟨"5.6.7.8", "81"⟩ ⟨[1, 2, 3], 3, 6⟩
      ⟨0.4, 0.3, 0.3, 3, 3, 5000, []⟩ 0).2.1.mpr
      (by rw [success_rate_three_of_six ⟨[1, 2, 3], 3, 6⟩ rfl rfl]; norm_num)

theorem speed_to_score_one_five : speed_to_score 1.5 = 1 := by
  rw [speed_to_score, if_neg (by norm_num), if_pos (by norm_num)]

/-- C1 counterexample: with average latency `1.5` seconds (weights `1/0/0`)
the code's composite score is `1`, while the claimed step function prescribes
sub-score `0.3` and hence composite score `0.3`. -/
theorem speed_subscore_step_counterexample :
    (compute_score ⟨some 1.5, some 0, some 0, none, none⟩
        ⟨1, 0, 0, 3, 3, 5000, []⟩).score = some 1
    ∧ stepScore 1.5 = 0.3
    ∧ rclamp (stepScore 1.5 * 1 + 0 * 0 + 0 * 0) 0 1 = 0.3
    ∧ (compute_score ⟨some 1.5, some 0, some 0, none, none⟩
        ⟨1, 0, 0, 3, 3, 5000, []⟩).score
        ≠ some (rclamp (stepScore 1.5 * 1 + 0 * 0 + 0 * 0) 0 1) := by
  have hstep : stepScore 1.5 = 0.3 := by
    rw [stepScore, if_neg (by norm_num), if_neg (by norm_num),
      if_neg (by norm_num), if_pos (by norm_num)]
  have h := compute_score_score ⟨some 1.5, some 0, some 0, none, none⟩
    ⟨1, 0, 0, 3, 3, 5000, []⟩
  simp only [Option.getD_some] at h
  rw [speed_to_score_one_five] at h
  rw [show (1 : ℝ) * 1 + 0 * 0 + 0 * 0 = 1 by norm_num] at h
  rw [rclamp_eq_self (by norm_num) (by norm_num)] at h
  have hcl : rclamp (stepScore 1.5 * 1 + 0 * 0 + 0 * 0) 0 1 = 0.3 := by
    rw [hstep, show (0.3 : ℝ) * 1 + 0 * 0 + 0 * 0 = 0.3 by norm_num]
    exact rclamp_eq_self (by norm_num) (by norm_num)
  refine ⟨h, hstep, hcl, ?_⟩
  rw [h, hcl]
  intro hc
  have : (1 : ℝ) = 0.3 := Option.some_injective ℝ hc
  norm_num at this

/-- C1 (amended).  The latency sub-score used in the composite score is the
continuous piecewise map `speed_to_score` applied to the stored average
latency — `0` at nonpositive input, `1` below `300`, `1 − √((s−300)/700)` on
`[300, 1000)`, `max(0.3 − (s−1000)/4000, 0)` on `[1000, 5000)`, `0` beyond —
not the spec's step function; witnessed at one point of every branch. -/
theorem speed_subscore_continuous (pr : ProxyCheckResult) (cfg : QualityConfig)
    (s : ℝ) (hpr : pr.speed = some s) :
    (compute_score pr cfg).score
      = some (rclamp (speed_to_score s * cfg.speed_weight
          + pr.success_rate.getD 0 * cfg.success_weight
          + pr.stability.getD 0 * cfg.stability_weight) 0 1)
    ∧ speed_to_score 0 = 0
    ∧ speed_to_score 150 = 1
    ∧ speed_to_score 475 = 0.5
    ∧ speed_to_score 2000 = 0.05
    ∧ speed_to_score 6000 = 0 := by
  refine ⟨?_, speed_to_score_nonpos 0 le_rfl, ?_, ?_, ?_, ?_⟩
  · have h := compute_score_score pr cfg
    rw [hpr] at h
    exact h
  · rw [speed_to_score, if_neg (by norm_num), if_pos (by norm_num)]
  · rw [speed_to_score, if_neg (by norm_num), if_neg (by norm_num),
      if_pos (by norm_num)]
    rw [show ((475 : ℝ) - 300) / 700 = (1 / 2) ^ 2 by norm_num]
    rw [Real.sqrt_sq (by norm_num)]
    norm_num
  · rw [speed_to_score, if_neg (by norm_num), if_neg (by norm_num),
      if_neg (by norm_num), if_pos (by norm_num)]
    rw [show (0.3 : ℝ) - ((2000 : ℝ) - 1000) / 4000 = 0.05 by norm_num]
    exact max_eq_left (by norm_num)
  · rw [speed_to_score, if_neg (by norm_num), if_neg (by norm_num),
      if_neg (by norm_num), if_neg (by norm_num)]

/-- C1 witness: a candidate with measured latency `0.42`, success rate `1`,
stability `0.5` is scored with sub-score `speed_to_score 0.42`. -/
theorem speed_subscore_continuous_witness :
    (compute_score ⟨some 0.42, some 1, some 0.5, none, none⟩
        ⟨0.4, 0.3, 0.3, 3, 3, 5000, []⟩).score
      = some (rclamp (speed_to_score 0.42 * 0.4 + 1 * 0.3 + 0.5 * 0.3) 0 1) := by
  have h := (speed_subscore_continuous ⟨some 0.42, some 1, some 0.5, none, none⟩
    ⟨0.4, 0.3, 0.3, 3, 3, 5000, []⟩ 0.42 rfl).1
  simpa using h

/-- C7 counterexample: `speed_to_score` is not monotonically non-increasing on
`0 ≤ a ≤ b`: it jumps from `0` at latency `0` up to `1` at latency `1`, and
from `1 − √(699/700) < 0.3` at latency `999` up to `0.3` at latency `1000`. -/
theorem speed_to_score_antitone_counterexample :
    ((0 : ℝ) ≤ 0 ∧ (0 : ℝ) ≤ 1 ∧ ¬ speed_to_score 1 ≤ speed_to_score 0)
    ∧ ((0 : ℝ) ≤ 999 ∧ (999 : ℝ) ≤ 1000
        ∧ ¬ speed_to_score 1000 ≤ speed_to_score 999) := by
  have h0 : speed_to_score 0 = 0 := speed_to_score_nonpos 0 le_rfl
  have h1 : speed_to_score 1 = 1 := by
    rw [speed_to_score, if_neg (by norm_num), if_pos (by norm_num)]
  have h999 : speed_to_score 999 = 1 - Real.sqrt (((999 : ℝ) - 300) / 700) := by
    rw [speed_to_score, if_neg (by norm_num), if_neg (by norm_num),
      if_pos (by norm_num)]
  have h1000 : speed_to_score 1000 = 0.3 := by
    rw [speed_to_score, if_neg (by norm_num), if_neg (by norm_num),
      if_neg (by norm_num), if_pos (by norm_num)]
    rw [show (0.3 : ℝ) - ((1000 : ℝ) - 1000) / 4000 = 0.3 by norm_num]
    exact max_eq_left (by norm_num)
  have hsq : (0.7 : ℝ) < Real.sqrt (((999 : ℝ) - 300) / 700) :=
    (Real.lt_sqrt (by norm_num)).mpr (by norm_num)
  refine ⟨⟨le_refl 0, by norm_num, ?_⟩, ⟨by norm_num, by norm_num, ?_⟩⟩
  · rw [h0, h1]
    norm_num
  · rw [h999, h1000]
    intro hc
    nlinarith

/-- C7 (amended).  `speed_to_score` is monotonically non-increasing on each
side of the jump points: for `0 < a ≤ b < 1000` and for `1000 ≤ a ≤ b` the
score of `b` is at most the score of `a` (it is not globally non-increasing:
it jumps upward at `0` and at `1000`). -/
theorem speed_to_score_piecewise_antitone :
    (∀ a b : ℝ, 0 < a → a ≤ b → b < 1000 → speed_to_score b ≤ speed_to_score a)
    ∧ (∀ a b : ℝ, 1000 ≤ a → a ≤ b → speed_to_score b ≤ speed_to_score a) := by
  constructor
  · intro a b ha hab hb
    have ha0 : ¬ a ≤ 0 := not_le.mpr ha
    have hb0 : ¬ b ≤ 0 := not_le.mpr (lt_of_lt_of_le ha hab)
    rw [speed_to_score, speed_to_score, if_neg ha0, if_neg hb0]
    by_cases hb3 : b < 300
    · rw [if_pos hb3, if_pos (lt_of_le_of_lt hab hb3)]
    · rw [if_neg hb3, if_pos hb]
      by_cases ha3 : a < 300
      · rw [if_pos ha3]
        have := Real.sqrt_nonneg ((b - 300) / 700)
        linarith
      · rw [if_neg ha3, if_pos (lt_of_le_of_lt hab hb)]
        have := Real.sqrt_le_sqrt
          (show (a - 300) / 700 ≤ (b - 300) / 700 by linarith)
        linarith
  · intro a b ha hab
    have hb' : (1000 : ℝ) ≤ b := le_trans ha hab
    rw [speed_to_score, speed_to_score,
      if_neg (by linarith : ¬ a ≤ 0), if_neg (by linarith : ¬ b ≤ 0),
      if_neg (by linarith : ¬ a < 300), if_neg (by linarith : ¬ b < 300),
      if_neg (by linarith : ¬ a < 1000), if_neg (by linarith : ¬ b < 1000)]
    by_cases hb5 : b < 5000
    · rw [if_pos hb5, if_pos (lt_of_le_of_lt hab hb5)]
      exact max_le_max (by linarith) le_rfl
    · rw [if_neg hb5]
      by_cases ha5 : a < 5000
      · rw [if_pos ha5]
        exact le_max_right _ 0
      · rw [if_neg ha5]

/-- C7 witness: `speed_to_score 200 ≤ speed_to_score 100` within `(0, 1000)`
and `speed_to_score 3000 ≤ speed_to_score 1000` within `[1000, ∞)`. -/
theorem speed_to_score_piecewise_antitone_witness :
    speed_to_score 200 ≤ speed_to_score 100
    ∧ speed_to_score 3000 ≤ speed_to_score 1000 :=
  ⟨speed_to_score_piecewise_antitone.1 100 200 (by norm_num) (by norm_num)
      (by norm_num),
   speed_to_score_piecewise_antitone.2 1000 3000 le_rfl (by norm_num)⟩

/-! ### Deduplicator lemmas -/

theorem dedupAux_congr (l : List ProxyBasic) :
    ∀ s₁ s₂ : List String, (∀ x, x ∈ s₁ ↔ x ∈ s₂) →
      dedupAux s₁ l = dedupAux s₂ l := by
  induction l with
  | nil => intro s₁ s₂ h; rfl
  | cons p rest ih =>
    intro s₁ s₂ h
    by_cases hp : proxyKey p ∈ s₁
    · rw [dedupAux, if_pos hp, dedupAux, if_pos ((h _).mp hp)]
      exact ih s₁ s₂ h
    · rw [dedupAux, if_neg hp, dedupAux, if_neg (fun hc => hp ((h _).mpr hc))]
      exact congrArg (p :: ·) (ih _ _ (fun x => by simp [h x]))

theorem dedupAux_cons_seen (l : List ProxyBasic) :
    ∀ (seen : List String) (k : String),
      dedupAux (k :: seen) l = dedupAux seen (l.filter (fun q => proxyKey q ≠ k)) := by
  induction l with
  | nil => intro seen k; rfl
  | cons q rest ih =>
    intro seen k
    by_cases hqk : proxyKey q = k
    · rw [dedupAux, if_pos (by simp [hqk]), ih seen k,
        List.filter_cons, if_neg (by simp [hqk])]
    · rw [List.filter_cons, if_pos (by simp [hqk])]
      by_cases hqs : proxyKey q ∈ seen
      · rw [dedupAux, if_pos (by simp [hqs]), dedupAux, if_pos hqs]
        exact ih seen k
      · rw [dedupAux, if_neg (by simp [hqk, hqs]), dedupAux, if_neg hqs]
        refine congrArg (q :: ·) ?_
        rw [dedupAux_congr rest (proxyKey q :: k :: seen) (k :: proxyKey q :: seen)
          (fun x => by constructor <;> (intro hx; simp at hx ⊢; tauto))]
        exact ih (proxyKey q :: seen) k

theorem dedup_proxies_eq_firstOccurrences_aux :
    ∀ (n : ℕ) (l : List ProxyBasic), l.length ≤ n →
      dedup_proxies l = firstOccurrences proxyKey l := by
  intro n
  induction n with
  | zero =>
    intro l hl
    rw [List.length_eq_zero.mp (Nat.le_zero.mp hl)]
    simp only [dedup_proxies, dedupAux, firstOccurrences]
  | succ n ih =>
    intro l hl
    cases l with
    | nil => simp only [dedup_proxies, dedupAux, firstOccurrences]
    | cons p rest =>
      have h1 : dedup_proxies (p :: rest) = p :: dedupAux [proxyKey p] rest := by
        rw [dedup_proxies, dedupAux, if_neg (List.not_mem_nil _)]
      rw [h1, dedupAux_cons_seen rest [] (proxyKey p)]
      have h2 : (rest.filter (fun q => proxyKey q ≠ proxyKey p)).length ≤ n :=
        le_trans (List.length_filter_le _ _)
          (Nat.lt_succ_iff.mp (lt_of_lt_of_le (by simp) hl))
      rw [show dedupAux [] (rest.filter (fun q => proxyKey q ≠ proxyKey p))
          = dedup_proxies (rest.filter (fun q => proxyKey q ≠ proxyKey p)) from rfl]
      rw [ih _ h2]
      simp only [firstOccurrences]

theorem dedupAux_sublist (l : List ProxyBasic) :
    ∀ seen : List String, (dedupAux seen l).Sublist l := by
  induction l with
  | nil => intro seen; exact List.Sublist.refl []
  | cons p rest ih =>
    intro seen
    rw [dedupAux]
    split
    · exact (ih seen).cons p
    · exact (ih (proxyKey p :: seen)).cons₂ p

theorem dedupAux_not_mem_seen (l : List ProxyBasic) :
    ∀ (seen : List String) (p : ProxyBasic), p ∈ dedupAux seen l →
      proxyKey p ∉ seen := by
  induction l with
  | nil => intro seen p hp; simp [dedupAux] at hp
  | cons q rest ih =>
    intro seen p hp
    rw [dedupAux] at hp
    by_cases hq : proxyKey q ∈ seen
    · rw [if_pos hq] at hp
      exact ih seen p hp
    · rw [if_neg hq] at hp
      rcases List.mem_cons.mp hp with h | h
      · rw [h]; exact hq
      · exact fun hc => ih _ p h (List.mem_cons_of_mem _ hc)

theorem dedupAux_pairwise_keys (l : List ProxyBasic) :
    ∀ seen : List String,
      (dedupAux seen l).Pairwise (fun p q => proxyKey p ≠ proxyKey q) := by
  induction l with
  | nil => intro seen; exact List.Pairwise.nil
  | cons q rest ih =>
    intro seen
    rw [dedupAux]
    split
    · exact ih seen
    · refine List.Pairwise.cons (fun r hr => ?_) (ih _)
      have := dedupAux_not_mem_seen rest _ r hr
      intro hc
      exact this (by rw [← hc]; exact List.mem_cons_self _ _)

theorem dedupAux_id_of_pairwise (l : List ProxyBasic) :
    ∀ seen : List String, (∀ p ∈ l, proxyKey p ∉ seen) →
      l.Pairwise (fun p q => proxyKey p ≠ proxyKey q) →
      dedupAux seen l = l := by
  induction l with
  | nil => intro seen _ _; rfl
  | cons q rest ih =>
    intro seen hseen hpw
    rw [dedupAux, if_neg (hseen q (List.mem_cons_self _ _))]
    refine congrArg (q :: ·) (ih _ (fun p hp => ?_) (List.Pairwise.of_cons hpw))
    intro hc
    rcases List.mem_cons.mp hc with h | h
    · exact (List.rel_of_pairwise_cons hpw hp) h.symm
    · exact hseen p (List.mem_cons_of_mem _ hp) h

/-- C8 (amended).  `dedup_proxies` keeps the first occurrence of each
`"ip:port"` string key (the key actually computed by the code): it equals the
spec's first-occurrence filter for that key, is a subsequence of its input
(first-seen order preserved), has pairwise-distinct keys, is no longer than
its input, and is idempotent. -/
theorem dedup_proxies_first_occurrence (l : List ProxyBasic) :
    dedup_proxies l = firstOccurrences proxyKey l
    ∧ (dedup_proxies l).Sublist l
    ∧ (dedup_proxies l).Pairwise (fun p q => proxyKey p ≠ proxyKey q)
    ∧ (dedup_proxies l).length ≤ l.length
    ∧ dedup_proxies (dedup_proxies l) = dedup_proxies l := by
  refine ⟨dedup_proxies_eq_firstOccurrences_aux l.length l le_rfl,
    dedupAux_sublist l [], dedupAux_pairwise_keys l [], ?_, ?_⟩
  · exact (dedupAux_sublist l []).length_le
  · exact dedupAux_id_of_pairwise (dedup_proxies l) []
      (fun p _ => List.not_mem_nil _) (dedupAux_pairwise_keys l [])

/-- C8 counterexample: the code deduplicates by the concatenated string
`"ip:port"`, not by the `(address, port)` pair — the two distinct candidates
`("a:b", "c")` and `("a", "b:c")` share the string key `"a:b:c"`, so the
second is dropped although its pair key never occurred before. -/
theorem dedup_pair_key_counterexample :
    dedup_proxies [⟨"a:b", "c"⟩, ⟨"a", "b:c"⟩] = [⟨"a:b", "c"⟩]
    ∧ firstOccurrences (fun p : ProxyBasic => (p.ip, p.port))
        [⟨"a:b", "c"⟩, ⟨"a", "b:c"⟩] = [⟨"a:b", "c"⟩, ⟨"a", "b:c"⟩]
    ∧ dedup_proxies [⟨"a:b", "c"⟩, ⟨"a", "b:c"⟩]
        ≠ firstOccurrences (fun p : ProxyBasic => (p.ip, p.port))
            [⟨"a:b", "c"⟩, ⟨"a", "b:c"⟩] := by
  have h1 : dedup_proxies [(⟨"a:b", "c"⟩ : ProxyBasic), ⟨"a", "b:c"⟩]
      = [⟨"a:b", "c"⟩] := by decide
  have h2 : firstOccurrences (fun p : ProxyBasic => (p.ip, p.port))
      [⟨"a:b", "c"⟩, ⟨"a", "b:c"⟩] = [⟨"a:b", "c"⟩, ⟨"a", "b:c"⟩] := by
    simp [firstOccurrences, List.filter]
  refine ⟨h1, h2, ?_⟩
  rw [h1, h2]
  decide

/-! ### Retry-loop lemmas -/

theorem sendLoop_all_fail (outcomes : ℕ → ReqOutcome) (mr : ℕ)
    (hall : ∀ i, i ≤ mr → (outcomes i).isSuccess = false) :
    ∀ (d attempt backoff : ℕ), attempt + d = mr →
      sendLoop outcomes mr attempt backoff
        = (none, d + 1, (List.range d).map (fun i => backoff * 2 ^ i)) := by
  intro d
  induction d with
  | zero =>
    intro attempt backoff h
    rw [Nat.add_zero] at h
    subst h
    rw [sendLoop, if_pos le_rfl]
    have hfail := hall attempt le_rfl
    cases houtcome : outcomes attempt with
    | ok st e =>
      cases st
      · simp [lt_irrefl]
      · rw [houtcome] at hfail
        simp [ReqOutcome.isSuccess] at hfail
    | err => simp [lt_irrefl]
  | succ d ih =>
    intro attempt backoff h
    have hlt : attempt < mr := by omega
    rw [sendLoop, if_pos (le_of_lt hlt)]
    have hrec := ih (attempt + 1) (backoff * 2) (by omega)
    have hfail := hall attempt (le_of_lt hlt)
    have hmap : backoff :: (List.range d).map (fun i => backoff * 2 * 2 ^ i)
        = (List.range (d + 1)).map (fun i => backoff * 2 ^ i) := by
      simp only [List.range_succ_eq_map, List.map_cons, List.map_map]
      congr 1
      · norm_num
      · refine List.map_congr_left fun i _ => ?_
        simp only [Function.comp_apply, pow_succ]
        ring
    cases houtcome : outcomes attempt with
    | ok st e' =>
      cases st
      · simp [hlt, hrec, hmap]
      · rw [houtcome] at hfail
        simp [ReqOutcome.isSuccess] at hfail
    | err => simp [hlt, hrec, hmap]

theorem sendLoop_first_success (outcomes : ℕ → ReqOutcome) (mr k : ℕ) (e : ℝ)
    (hk : outcomes k = .ok true e) (hkm : k ≤ mr)
    (hbefore : ∀ i, i < k → (outcomes i).isSuccess = false) :
    ∀ (d attempt backoff : ℕ), attempt + d = k →
      sendLoop outcomes mr attempt backoff
        = (some (round2 e), d + 1, (List.range d).map (fun i => backoff * 2 ^ i)) := by
  intro d
  induction d with
  | zero =>
    intro attempt backoff h
    rw [Nat.add_zero] at h
    subst h
    rw [sendLoop, if_pos hkm]
    simp [hk]
  | succ d ih =>
    intro attempt backoff h
    have hltk : attempt < k := by omega
    have hlt : attempt < mr := lt_of_lt_of_le hltk hkm
    rw [sendLoop, if_pos (le_of_lt hlt)]
    have hrec := ih (attempt + 1) (backoff * 2) (by omega)
    have hfail := hbefore attempt hltk
    have hmap : backoff :: (List.range d).map (fun i => backoff * 2 * 2 ^ i)
        = (List.range (d + 1)).map (fun i => backoff * 2 ^ i) := by
      simp only [List.range_succ_eq_map, List.map_cons, List.map_map]
      congr 1
      · norm_num
      · refine List.map_congr_left fun i _ => ?_
        simp only [Function.comp_apply, pow_succ]
        ring
    cases houtcome : outcomes attempt with
    | ok st e' =>
      cases st
      · simp [hlt, hrec, hmap]
      · rw [houtcome] at hfail
        simp [ReqOutcome.isSuccess] at hfail
    | err => simp [hlt, hrec, hmap]

/-- C4.  `send_with_retries` with the network modelled as an oracle of per-try
outcomes: if every try up to `max_retries` fails, exactly `max_retries + 1`
requests are issued, separated by backoff sleeps `500·2⁰, 500·2¹, …` ms, and
the result is `none` (the slot is recorded as a failure by `run_tests`); if
try `k ≤ max_retries` is the first with a success-range status, the result is
`some (round2 elapsed_k)` — the elapsed time of that try alone — after `k + 1`
requests and sleeps `500·2⁰, …, 500·2^(k−1)`. -/
theorem send_with_retries_spec (outcomes : ℕ → ReqOutcome) (max_retries : ℕ) :
    ((∀ i, i ≤ max_retries → (outcomes i).isSuccess = false) →
      send_with_retries outcomes max_retries
        = (none, max_retries + 1,
            (List.range max_retries).map (fun i => 500 * 2 ^ i)))
    ∧ (∀ k e, outcomes k = .ok true e → k ≤ max_retries →
        (∀ i, i < k → (outcomes i).isSuccess = false) →
        send_with_retries outcomes max_retries
          = (some (round2 e), k + 1,
              (List.range k).map (fun i => 500 * 2 ^ i))) := by
  constructor
  · intro hall
    exact sendLoop_all_fail outcomes max_retries hall max_retries 0 500
      (Nat.zero_add _)
  · intro k e hk hkm hbefore
    exact sendLoop_first_success outcomes max_retries k e hk hkm hbefore k 0 500
      (Nat.zero_add _)

/-- C4 witness: with `max_retries = 2` and every try failing, exactly 3
requests are sent with sleeps `[500, 1000]` ms and no latency is recorded;
with the first success on try 2 (0-based), the recorded latency is that try's
elapsed time rounded to two decimals. -/
theorem send_with_retries_spec_witness :
    send_with_retries (fun _ => .err) 2 = (none, 3, [500, 1000])
    ∧ send_with_retries (fun i => if i < 2 then .err else .ok true 1.234) 3
        = (some (round2 1.234), 3, [500, 1000]) := by
  constructor
  · have h := (send_with_retries_spec (fun _ => .err) 2).1
      (fun i _ => rfl)
    rw [h]
    have : (List.range 2).map (fun i => 500 * 2 ^ i) = [500, 1000] := by decide
    rw [this]
  · have h := (send_with_retries_spec
        (fun i => if i < 2 then .err else .ok true 1.234) 3).2 2 1.234
      (by simp) (by omega)
      (fun i hi => by simp [hi, ReqOutcome.isSuccess])
    rw [h]
    have : (List.range 2).map (fun i => 500 * 2 ^ i) = [500, 1000] := by decide
    rw [this]

end ProxyHydra
